import Mathlib

/-!
Verification of the options-chain curation routine of the options-wiz
backend (`backend/app/main.py`).

The embedding models the Python code shallowly:
- Python floats that can be non-finite are modelled by `PyFloat`
  (a finite rational, NaN, +inf or -inf); float arithmetic on the small
  decimal quantities involved is modelled exactly by rationals.
- A provider contract record (a Python dict produced by
  `DataFrame.to_dict('records')`) is a `List (String × PyVal)` of
  key/value pairs in insertion order.
- Calendar dates are day numbers (`Int`); the current moment is a day
  number `today` plus `nowSec` seconds past midnight, so that
  `pandas.Timestamp` subtraction and its `.days` attribute (floor of the
  difference in days, `datetime.timedelta` semantics) can be expressed.
- The market-data provider (`yfinance`) is an explicit environment `Env`:
  the two price fields of `ticker.info`, the ordered expiration list
  `ticker.options`, and the call/put record lists of
  `ticker.option_chain`.
- A Python exception escaping to the outer `except Exception` handler
  (which returns the catch-all `{"error": "Internal error: ..."}` payload)
  is modelled by `Except.error`; the distinct error payloads the endpoint
  can produce are the constructors of `ErrKind`.
-/

/-- A Python float value: a finite value (modelled exactly as a rational),
NaN, or a signed infinity. -/
inductive PyFloat where
  | finite (q : ℚ)
  | nan
  | inf
  | ninf
deriving DecidableEq, Repr

/-- A Python value that can occur as a field of a provider contract
record: a float, `None`, an int, or a string. -/
inductive PyVal where
  | float (x : PyFloat)
  | none
  | int (n : ℤ)
  | str (s : String)
deriving DecidableEq, Repr

/-- A contract record: the key/value pairs of the Python dict, in order. -/
abbrev Item := List (String × PyVal)

/-- Models Python `math.isnan` on our float carrier. -/
def PyFloat.isnanB : PyFloat → Bool
  | .nan => true
  | _ => false

/-- Models Python `math.isinf` on our float carrier. -/
def PyFloat.isinfB : PyFloat → Bool
  | .inf => true
  | .ninf => true
  | _ => false

/-- A value is a non-finite float (NaN or ±inf). -/
def PyVal.nonfinite : PyVal → Bool
  | .float x => x.isnanB || x.isinfB
  | _ => false

/-- The per-value step of `clean_float_values`: a float that is NaN or
infinite becomes `None`; every other value passes through unchanged. -/
def cleanVal (v : PyVal) : PyVal :=
  match v with
  | .float x => if x.isnanB || x.isinfB then .none else .float x
  | v => v

/-- The per-record step of `clean_float_values`: rewrite each value,
keeping every key and the record's field order. -/
def cleanItem (item : Item) : Item :=
  item.map (fun kv => (kv.1, cleanVal kv.2))

/-- Embeds `clean_float_values` from `main.py`: sanitize every record of
the list. -/
def clean_float_values (l : List Item) : List Item :=
  l.map cleanItem

/-- Models Python `<=` between two floats: any comparison involving NaN is
false, infinities compare in the usual order, finite values compare as
rationals. -/
def pyfLe : PyFloat → PyFloat → Bool
  | .nan, _ => false
  | _, .nan => false
  | .ninf, _ => true
  | _, .ninf => false
  | _, .inf => true
  | .inf, _ => false
  | .finite a, .finite b => a ≤ b

/-- The product `p * (a / b)` of a rational with a ratio of integers,
computed with `Rat.divInt` on the numerator and denominator so that it
evaluates by kernel reduction; `ratScale_eq` below identifies it with the
field operations on `ℚ`. -/
def ratScale (p : ℚ) (a b : ℤ) : ℚ :=
  Rat.divInt (p.num * a) (p.den * b)

/-- Models the strike-band test
`current_price * 0.9 <= item['strike'] <= current_price * 1.1`.
A missing `strike` key, a `None` strike (as produced by sanitization of a
non-finite strike) or a string strike raises a Python exception, modelled
by `Except.error ()`; a float or int strike yields the boolean chained
comparison. -/
def strikeCheck (price : ℚ) (item : Item) : Except Unit Bool :=
  match item.lookup "strike" with
  | some (.float f) =>
      .ok (pyfLe (.finite (ratScale price 9 10)) f &&
           pyfLe f (.finite (ratScale price 11 10)))
  | some (.int n) =>
      .ok (pyfLe (.finite (ratScale price 9 10)) (.finite (n : ℚ)) &&
           pyfLe (.finite (n : ℚ)) (.finite (ratScale price 11 10)))
  | _ => .error ()

/-- Embeds the list comprehension
`[c for c in items if price*0.9 <= c['strike'] <= price*1.1]`:
keeps the items passing the band test in their original order, and
propagates the exception raised on an item without a comparable strike. -/
def bandFilter (price : ℚ) : List Item → Except Unit (List Item)
  | [] => .ok []
  | i :: rest =>
      match strikeCheck price i with
      | .error e => .error e
      | .ok b =>
          match bandFilter price rest with
          | .error e => .error e
          | .ok tail => .ok (if b then i :: tail else tail)

/-- Embeds `categorize_expiration` from `main.py`. -/
def categorize_expiration (days_until_exp : ℤ) : String :=
  if days_until_exp ≤ 7 then "weekly"
  else if days_until_exp ≤ 30 then "short-term"
  else if days_until_exp ≤ 90 then "monthly"
  else if days_until_exp ≤ 180 then "quarterly"
  else "long-term"

/-- Models Python `int()` applied to a rational-valued float: truncation
toward zero, computed as the truncating division of the numerator by the
denominator. -/
def pyInt (q : ℚ) : ℤ :=
  q.num.tdiv q.den

/-- One enriched entry of `available_expirations` (the `formatted_date`
display string, a pure `strftime` rendering, is not modelled). -/
structure ExpirationInfo where
  date : ℤ
  days_until_expiration : ℤ
  category : String
  is_current : Bool
  trading_days_approx : ℤ
deriving DecidableEq, Repr

/-- Stable insertion into a list sorted by `days_until_expiration`: the
new element goes after all elements with a key less than or equal to its
own, modelling the stability of Python `sorted`. -/
def insertByDays (x : ExpirationInfo) : List ExpirationInfo → List ExpirationInfo
  | [] => [x]
  | y :: ys =>
      if y.days_until_expiration ≤ x.days_until_expiration then
        y :: insertByDays x ys
      else x :: y :: ys

/-- Stable sort by `days_until_expiration`, modelling
`sorted(smart_expirations, key=lambda x: x["days_until_expiration"])`. -/
def sortByDays (l : List ExpirationInfo) : List ExpirationInfo :=
  l.foldl (fun acc x => insertByDays x acc) []

/-- The successful response body of `get_options_chain` (the echoed
upper-cased symbol string is not modelled). -/
structure ChainResponse where
  current_price : ℚ
  expiration_date : ℤ
  days_to_expiration : ℤ
  calls : List Item
  puts : List Item
  available_expirations : List ExpirationInfo
deriving DecidableEq, Repr

/-- The distinct error payloads of the endpoint. `priceNotFound` is the
`HTTPException(404, "Stock price not found")`, which the outer
`except Exception` handler converts into an `{"error": "Internal error:
404: Stock price not found"}` payload; `internalError` is the catch-all
payload produced from any other exception. -/
inductive ErrKind where
  | priceNotFound
  | noOptionsData
  | expirationNotAvailable (d : ℤ)
  | noActiveExpirations
  | internalError
deriving DecidableEq, Repr

/-- The provider environment and clock of one request. -/
structure Env where
  infoCurrentPrice : Option ℚ
  infoRegularMarketPrice : Option ℚ
  expirations : List ℤ
  chainCalls : ℤ → List Item
  chainPuts : ℤ → List Item
  today : ℤ
  nowSec : ℤ

/-- Embeds `info.get("currentPrice", info.get("regularMarketPrice"))`. -/
def resolvePrice (env : Env) : Option ℚ :=
  match env.infoCurrentPrice with
  | some p => some p
  | none => env.infoRegularMarketPrice

/-- Embeds the expiration-selection block of `get_options_chain`: a
requested expiration must be a member of the provider list, otherwise the
`ExpirationNotAvailable` payload; with no request, the first provider-order
date strictly after today is selected, and if none exists the
`NoActiveExpirations` payload is returned. -/
def selectExpiration (env : Env) (expiration : Option ℤ) : Except ErrKind ℤ :=
  match expiration with
  | some d => if d ∈ env.expirations then .ok d else .error (.expirationNotAvailable d)
  | none =>
      match env.expirations.find? (fun e => env.today < e) with
      | some d => .ok d
      | none => .error .noActiveExpirations

/-- Embeds the `smart_expirations` construction: every provider expiration
with `0 < days_until_expiration <= 180` is enriched with its category,
currency flag and trading-day estimate, then the list is stably sorted by
days until expiration and truncated to 12 entries. -/
def smartExpirations (env : Env) (expDate : ℤ) : List ExpirationInfo :=
  (sortByDays (env.expirations.filterMap (fun e =>
    let days := e - env.today
    if 0 < days ∧ days ≤ 180 then
      some { date := e
             days_until_expiration := days
             category := categorize_expiration days
             is_current := decide (e = expDate)
             trading_days_approx := pyInt (Rat.divInt (days * 5) 7) }
    else none))).take 12

/-- Embeds `(exp_datetime - pd.Timestamp.now()).days`: the floor of the
timestamp difference measured in days, with the expiration timestamp at
midnight of its date and the current moment `nowSec` seconds past
midnight of `today`. -/
def daysToExp (env : Env) (expDate : ℤ) : ℤ :=
  Int.fdiv (expDate * 86400 - (env.today * 86400 + env.nowSec)) 86400

/-- Embeds the chain-processing tail of `get_options_chain` after an
expiration has been selected: fetch the chain, sanitize both record lists,
band-filter each and truncate to 10 (an exception from the band test
becomes the catch-all payload), and assemble the response. -/
def buildChain (env : Env) (p : ℚ) (expDate : ℤ) : Except ErrKind ChainResponse :=
  match bandFilter p (clean_float_values (env.chainCalls expDate)) with
  | .error _ => .error .internalError
  | .ok fc =>
      match bandFilter p (clean_float_values (env.chainPuts expDate)) with
      | .error _ => .error .internalError
      | .ok fp =>
          .ok { current_price := p
                expiration_date := expDate
                days_to_expiration := daysToExp env expDate
                calls := fc.take 10
                puts := fp.take 10
                available_expirations := smartExpirations env expDate }

/-- Embeds the endpoint `get_options_chain(symbol, expiration)`: resolve
the price (a missing or falsy — in particular zero — price raises the
404 that the outer handler converts to a payload), require a non-empty
expiration list, select the expiration and build the chain. -/
def get_options_chain (env : Env) (expiration : Option ℤ) :
    Except ErrKind ChainResponse :=
  match resolvePrice env with
  | Option.none => .error .priceNotFound
  | some p =>
      if p = 0 then .error .priceNotFound
      else if env.expirations.isEmpty then .error .noOptionsData
      else
        match selectExpiration env expiration with
        | .error e => .error e
        | .ok expDate => buildChain env p expDate

/-- The rational value of a record's `strike` field, when the field is
present and numeric (a finite float or an int). -/
def strikeVal (item : Item) : Option ℚ :=
  match item.lookup "strike" with
  | some (.float (.finite q)) => some q
  | some (.int n) => some (n : ℚ)
  | _ => Option.none

/-! ### Helper lemmas -/

lemma ratScale_eq (p : ℚ) (a b : ℤ) :
    ratScale p a b = p * ((a : ℚ) / (b : ℚ)) := by
  rw [ratScale, Rat.divInt_eq_div]
  push_cast
  rw [← div_mul_div_comm, Rat.num_div_den]

lemma pyfLe_finite (a b : ℚ) :
    pyfLe (.finite a) (.finite b) = decide (a ≤ b) := rfl

lemma cleanVal_eq (v : PyVal) :
    cleanVal v = if v.nonfinite then PyVal.none else v := by
  cases v with
  | float x => simp only [cleanVal, PyVal.nonfinite]
  | none => rfl
  | int n => rfl
  | str s => rfl

lemma nonfinite_cleanVal (v : PyVal) : (cleanVal v).nonfinite = false := by
  rw [cleanVal_eq]
  by_cases h : v.nonfinite
  · rw [if_pos h]; rfl
  · rw [if_neg h]; exact Bool.eq_false_iff.2 h

lemma cleanVal_idem (v : PyVal) : cleanVal (cleanVal v) = cleanVal v := by
  rw [cleanVal_eq (cleanVal v), nonfinite_cleanVal]
  simp

lemma cleanItem_spec (item : Item) :
    List.Forall₂
      (fun kv kv' : String × PyVal =>
        kv'.1 = kv.1 ∧ kv'.2 = (if kv.2.nonfinite then PyVal.none else kv.2))
      item (cleanItem item) := by
  induction item with
  | nil => exact List.Forall₂.nil
  | cons kv rest ih =>
      exact List.Forall₂.cons ⟨rfl, cleanVal_eq kv.2⟩ ih

lemma mem_cleanItem_nonfinite {item : Item} {kv : String × PyVal}
    (h : kv ∈ cleanItem item) : kv.2.nonfinite = false := by
  rw [cleanItem, List.mem_map] at h
  obtain ⟨a, _, rfl⟩ := h
  exact nonfinite_cleanVal a.2

lemma cleanItem_idem (item : Item) : cleanItem (cleanItem item) = cleanItem item := by
  rw [cleanItem, cleanItem, List.map_map]
  refine List.map_congr_left ?_
  intro kv _
  simp only [Function.comp_apply, cleanVal_idem]

lemma mem_clean_nonfinite {l : List Item} {c : Item} {kv : String × PyVal}
    (hc : c ∈ clean_float_values l) (hkv : kv ∈ c) : kv.2.nonfinite = false := by
  rw [clean_float_values, List.mem_map] at hc
  obtain ⟨item, _, rfl⟩ := hc
  exact mem_cleanItem_nonfinite hkv

lemma bandFilter_ok_elim {p : ℚ} {l l' : List Item}
    (h : bandFilter p l = .ok l') :
    List.Sublist l' l ∧ ∀ c ∈ l', strikeCheck p c = .ok true := by
  induction l generalizing l' with
  | nil =>
      rw [bandFilter] at h
      cases h
      exact ⟨List.Sublist.refl [], by intro c hc; cases hc⟩
  | cons i rest ih =>
      rw [bandFilter] at h
      cases hc : strikeCheck p i with
      | error e => rw [hc] at h; exact Except.noConfusion h
      | ok b =>
          rw [hc] at h
          cases ht : bandFilter p rest with
          | error e => rw [ht] at h; exact Except.noConfusion h
          | ok tail =>
              rw [ht] at h
              obtain ⟨hsub, hmem⟩ := ih ht
              cases b with
              | true =>
                  cases h
                  refine ⟨List.Sublist.cons₂ i hsub, ?_⟩
                  intro c hcm
                  rcases List.mem_cons.1 hcm with hce | hcr
                  · rw [hce]; exact hc
                  · exact hmem c hcr
              | false =>
                  cases h
                  exact ⟨List.Sublist.cons i hsub, hmem⟩

lemma strikeCheck_ok_true {p : ℚ} {c : Item}
    (h : strikeCheck p c = .ok true) :
    ∃ q, strikeVal c = some q ∧ p * (9 / 10) ≤ q ∧ q ≤ p * (11 / 10) := by
  have h910 : ratScale p 9 10 = p * (9 / 10) := by
    rw [ratScale_eq]; norm_num
  have h1110 : ratScale p 11 10 = p * (11 / 10) := by
    rw [ratScale_eq]; norm_num
  rw [strikeCheck] at h
  rw [strikeVal]
  cases hl : c.lookup "strike" with
  | none => rw [hl] at h; exact Except.noConfusion h
  | some v =>
      rw [hl] at h
      cases v with
      | float f =>
          cases f with
          | finite q =>
              simp only [pyfLe_finite, Except.ok.injEq, Bool.and_eq_true,
                decide_eq_true_eq] at h
              exact ⟨q, rfl, h910 ▸ h.1, h1110 ▸ h.2⟩
          | nan => simp [pyfLe] at h
          | inf => simp [pyfLe] at h
          | ninf => simp [pyfLe] at h
      | none => exact Except.noConfusion h
      | int n =>
          simp only [pyfLe_finite, Except.ok.injEq, Bool.and_eq_true,
            decide_eq_true_eq] at h
          exact ⟨(n : ℚ), rfl, h910 ▸ h.1, h1110 ▸ h.2⟩
      | str s => exact Except.noConfusion h

lemma mem_insertByDays {x y : ExpirationInfo} {l : List ExpirationInfo} :
    x ∈ insertByDays y l ↔ x = y ∨ x ∈ l := by
  induction l with
  | nil => simp [insertByDays]
  | cons z zs ih =>
      rw [insertByDays]
      by_cases h : z.days_until_expiration ≤ y.days_until_expiration
      · rw [if_pos h]
        simp only [List.mem_cons, ih]
        tauto
      · rw [if_neg h]
        simp [List.mem_cons]

lemma mem_sortByDays {x : ExpirationInfo} {l : List ExpirationInfo} :
    x ∈ sortByDays l ↔ x ∈ l := by
  suffices h : ∀ acc : List ExpirationInfo,
      x ∈ l.foldl (fun acc x => insertByDays x acc) acc ↔ x ∈ acc ∨ x ∈ l by
    rw [sortByDays, h []]
    simp
  induction l with
  | nil => intro acc; simp
  | cons z zs ih =>
      intro acc
      rw [List.foldl_cons, ih (insertByDays z acc), mem_insertByDays]
      simp only [List.mem_cons]
      tauto

lemma mem_smartExpirations {env : Env} {d : ℤ} {x : ExpirationInfo}
    (h : x ∈ smartExpirations env d) :
    ∃ e ∈ env.expirations, 0 < e - env.today ∧ e - env.today ≤ 180 ∧
      x = { date := e
            days_until_expiration := e - env.today
            category := categorize_expiration (e - env.today)
            is_current := decide (e = d)
            trading_days_approx := pyInt (Rat.divInt ((e - env.today) * 5) 7) } := by
  rw [smartExpirations] at h
  have h1 := (List.take_sublist 12 _).subset h
  rw [mem_sortByDays, List.mem_filterMap] at h1
  obtain ⟨e, he, hx⟩ := h1
  dsimp only at hx
  by_cases hc : 0 < e - env.today ∧ e - env.today ≤ 180
  · rw [if_pos hc] at hx
    exact ⟨e, he, hc.1, hc.2, (Option.some.inj hx).symm⟩
  · rw [if_neg hc] at hx
    exact Option.noConfusion hx

lemma get_ok_elim {env : Env} {req : Option ℤ} {r : ChainResponse}
    (h : get_options_chain env req = .ok r) :
    ∃ p d fc fp,
      resolvePrice env = some p ∧ ¬p = 0 ∧ env.expirations.isEmpty = false ∧
      selectExpiration env req = .ok d ∧
      bandFilter p (clean_float_values (env.chainCalls d)) = .ok fc ∧
      bandFilter p (clean_float_values (env.chainPuts d)) = .ok fp ∧
      r = { current_price := p
            expiration_date := d
            days_to_expiration := daysToExp env d
            calls := fc.take 10
            puts := fp.take 10
            available_expirations := smartExpirations env d } := by
  rw [get_options_chain] at h
  split at h
  · exact Except.noConfusion h
  · rename_i p hp
    split at h
    · exact Except.noConfusion h
    · rename_i hp0
      split at h
      · exact Except.noConfusion h
      · rename_i hne
        split at h
        · exact Except.noConfusion h
        · rename_i d hs
          rw [buildChain] at h
          split at h
          · exact Except.noConfusion h
          · rename_i fc hfc
            split at h
            · exact Except.noConfusion h
            · rename_i fp hfp
              exact ⟨p, d, fc, fp, hp, hp0, by simpa using hne, hs, hfc, hfp,
                (Except.ok.inj h).symm⟩

lemma find?_lt_eq_some_split {l : List ℤ} {t d : ℤ}
    (h : l.find? (fun e => t < e) = some d) :
    t < d ∧ ∃ l₁ l₂, l = l₁ ++ d :: l₂ ∧ ∀ e ∈ l₁, e ≤ t := by
  induction l with
  | nil => exact Option.noConfusion h
  | cons a as ih =>
      by_cases ha : t < a
      · rw [List.find?_cons_of_pos _ (by simpa using ha)] at h
        have had : a = d := Option.some.inj h
        subst had
        exact ⟨ha, [], as, rfl, by intro e he; cases he⟩
      · rw [List.find?_cons_of_neg _ (by simpa using ha)] at h
        obtain ⟨hd, l₁, l₂, heq, hall⟩ := ih h
        refine ⟨hd, a :: l₁, l₂, by rw [heq]; rfl, ?_⟩
        intro e he
        rcases List.mem_cons.1 he with he1 | he2
        · rw [he1]; exact le_of_not_lt ha
        · exact hall e he2

lemma daysToExp_eq {env : Env} (d : ℤ)
    (h0 : 0 ≤ env.nowSec) (h1 : env.nowSec < 86400) :
    daysToExp env d =
      if env.nowSec = 0 then d - env.today else d - env.today - 1 := by
  rw [daysToExp, Int.fdiv_eq_ediv _ (by norm_num)]
  by_cases hs : env.nowSec = 0
  · rw [if_pos hs]; omega
  · rw [if_neg hs]; omega

lemma pyInt_eq_floor {q : ℚ} (h : 0 ≤ q) : pyInt q = ⌊q⌋ := by
  rw [pyInt, Rat.floor_def]
  exact Int.tdiv_eq_ediv (Rat.num_nonneg.2 h) (Int.ofNat_nonneg _)

lemma pyInt_divInt_floor {a b : ℤ} (ha : 0 ≤ a) (hb : 0 < b) :
    pyInt (Rat.divInt a b) = ⌊(a : ℚ) / (b : ℚ)⌋ := by
  rw [pyInt_eq_floor, Rat.divInt_eq_div]
  rw [Rat.divInt_eq_div]
  positivity

deriving instance DecidableEq for Except

/-! ### Concrete environments for witnesses and examples -/

/-- The spec's worked example: price 150.00, one future expiration five
days out, call strikes [130, 140, 145, 150, 155, 160, 170], no puts. -/
def envEx150 : Env :=
  { infoCurrentPrice := some 150
    infoRegularMarketPrice := Option.none
    expirations := [5]
    chainCalls := fun _ =>
      [[("strike", PyVal.float (.finite 130))],
       [("strike", PyVal.float (.finite 140))],
       [("strike", PyVal.float (.finite 145))],
       [("strike", PyVal.float (.finite 150))],
       [("strike", PyVal.float (.finite 155))],
       [("strike", PyVal.float (.finite 160))],
       [("strike", PyVal.float (.finite 170))]]
    chainPuts := fun _ => []
    today := 0
    nowSec := 0 }

/-- The response `get_options_chain` produces on `envEx150`. -/
def respEx150 : ChainResponse :=
  { current_price := 150
    expiration_date := 5
    days_to_expiration := 5
    calls :=
      [[("strike", PyVal.float (.finite 140))],
       [("strike", PyVal.float (.finite 145))],
       [("strike", PyVal.float (.finite 150))],
       [("strike", PyVal.float (.finite 155))],
       [("strike", PyVal.float (.finite 160))]]
    puts := []
    available_expirations :=
      [{ date := 5, days_until_expiration := 5, category := "weekly",
         is_current := true, trading_days_approx := 3 }] }

lemma envEx150_ok : get_options_chain envEx150 Option.none = .ok respEx150 := by
  decide

/-- A provider list mixing expired and future dates: today is day 10, the
provider lists day 3 (expired), day 12 and day 50. -/
def envMix : Env :=
  { infoCurrentPrice := some 150
    infoRegularMarketPrice := Option.none
    expirations := [3, 12, 50]
    chainCalls := fun _ => [[("strike", PyVal.float (.finite 150))]]
    chainPuts := fun _ => []
    today := 10
    nowSec := 0 }

/-- An environment whose resolved current price is exactly zero. -/
def envZero : Env :=
  { infoCurrentPrice := some 0
    infoRegularMarketPrice := Option.none
    expirations := [5]
    chainCalls := fun _ => []
    chainPuts := fun _ => []
    today := 0
    nowSec := 0 }

/-- `envEx150` observed one hour after midnight rather than at midnight. -/
def envLate : Env :=
  { infoCurrentPrice := some 150
    infoRegularMarketPrice := Option.none
    expirations := [5]
    chainCalls := fun _ => []
    chainPuts := fun _ => []
    today := 0
    nowSec := 3600 }

/-- The response `get_options_chain` produces on `envLate`: the timestamp
difference 5 days minus one hour floors to 4 days. -/
def respLate : ChainResponse :=
  { current_price := 150
    expiration_date := 5
    days_to_expiration := 4
    calls := []
    puts := []
    available_expirations :=
      [{ date := 5, days_until_expiration := 5, category := "weekly",
         is_current := true, trading_days_approx := 3 }] }

lemma envLate_ok : get_options_chain envLate Option.none = .ok respLate := by
  decide

/-- A chain whose only call contract has a NaN strike. -/
def envNanStrike : Env :=
  { infoCurrentPrice := some 100
    infoRegularMarketPrice := Option.none
    expirations := [3]
    chainCalls := fun _ =>
      [[("strike", PyVal.float PyFloat.nan),
        ("impliedVolatility", PyVal.float (.finite 1))]]
    chainPuts := fun _ => []
    today := 0
    nowSec := 0 }

/-! ### Claims -/

/-- C8: float sanitization is idempotent — applying `clean_float_values`
to its own output yields that output unchanged, for every list of
contract records. -/
theorem c8_sanitization_idempotent (l : List Item) :
    clean_float_values (clean_float_values l) = clean_float_values l := by
  simp only [clean_float_values, List.map_map]
  refine List.map_congr_left ?_
  intro item _
  simp only [Function.comp_apply]
  exact cleanItem_idem item

/-- C9: whenever the provider's resolved current price is exactly 0 —
exactly as when it is absent — `get_options_chain` takes the missing-price
failure path and returns the price-not-found error payload rather than a
chain: the truthiness check on the price does not distinguish a zero
price from a missing one. -/
theorem c9_zero_price_is_missing (env : Env) (req : Option ℤ)
    (h : resolvePrice env = some 0 ∨ resolvePrice env = Option.none) :
    get_options_chain env req = .error .priceNotFound := by
  rcases h with h | h <;> simp [get_options_chain, h]

/-- Witness for C9: the concrete environment `envZero` resolves to a zero
price and the endpoint answers with the price-not-found error payload. -/
theorem c9_zero_price_is_missing_witness :
    (resolvePrice envZero = some 0 ∨ resolvePrice envZero = Option.none) ∧
    get_options_chain envZero Option.none = .error .priceNotFound :=
  ⟨by decide, c9_zero_price_is_missing envZero Option.none (by decide)⟩

/-- C10: on a chain containing a contract whose strike is NaN, the whole
request fails with the catch-all internal-error payload instead of that
contract being skipped: sanitization rewrites the strike to `None` before
strike-band filtering, the band comparison on `None` raises, and the
outer handler converts the exception into the generic payload. -/
theorem c10_nan_strike_poisons_request :
    envNanStrike.chainCalls 3 =
      [[("strike", PyVal.float PyFloat.nan),
        ("impliedVolatility", PyVal.float (.finite 1))]] ∧
    clean_float_values (envNanStrike.chainCalls 3) =
      [[("strike", PyVal.none),
        ("impliedVolatility", PyVal.float (.finite 1))]] ∧
    strikeCheck 100 [("strike", PyVal.none),
        ("impliedVolatility", PyVal.float (.finite 1))] = .error () ∧
    get_options_chain envNanStrike Option.none = .error .internalError :=
  ⟨by decide, by decide, by decide, by decide⟩

/-- C3: sanitization rewrites exactly the non-finite float fields of every
record to `None`, field for field, keeping all keys, their order and every
other value; it is applied to the chain's records before the strike-band
filtering, so no non-finite value ever appears among the response's
contracts. -/
theorem c3_sanitization_per_field (env : Env) (req : Option ℤ)
    (r : ChainResponse) (h : get_options_chain env req = .ok r) :
    (∀ (l : List Item), ∀ item ∈ l,
        List.Forall₂
          (fun kv kv' : String × PyVal =>
            kv'.1 = kv.1 ∧
            kv'.2 = (if kv.2.nonfinite then PyVal.none else kv.2))
          item (cleanItem item) ∧
        cleanItem item ∈ clean_float_values l) ∧
    List.Sublist r.calls (clean_float_values (env.chainCalls r.expiration_date)) ∧
    List.Sublist r.puts (clean_float_values (env.chainPuts r.expiration_date)) ∧
    (∀ c ∈ r.calls ++ r.puts, ∀ kv ∈ c, kv.2.nonfinite = false) := by
  obtain ⟨p, d, fc, fp, hp, hp0, hne, hs, hfc, hfp, hr⟩ := get_ok_elim h
  subst hr
  dsimp only
  have hcalls : List.Sublist (fc.take 10)
      (clean_float_values (env.chainCalls d)) :=
    (List.take_sublist 10 fc).trans (bandFilter_ok_elim hfc).1
  have hputs : List.Sublist (fp.take 10)
      (clean_float_values (env.chainPuts d)) :=
    (List.take_sublist 10 fp).trans (bandFilter_ok_elim hfp).1
  refine ⟨?_, hcalls, hputs, ?_⟩
  · intro l item hitem
    refine ⟨cleanItem_spec item, ?_⟩
    rw [clean_float_values]
    exact List.mem_map_of_mem _ hitem
  · intro c hc kv hkv
    rcases List.mem_append.1 hc with h1 | h2
    · exact mem_clean_nonfinite (hcalls.subset h1) hkv
    · exact mem_clean_nonfinite (hputs.subset h2) hkv

/-- Witness for C3: instantiated on the concrete run of `envEx150`. -/
theorem c3_sanitization_per_field_witness :
    get_options_chain envEx150 Option.none = .ok respEx150 ∧
    ((∀ (l : List Item), ∀ item ∈ l,
        List.Forall₂
          (fun kv kv' : String × PyVal =>
            kv'.1 = kv.1 ∧
            kv'.2 = (if kv.2.nonfinite then PyVal.none else kv.2))
          item (cleanItem item) ∧
        cleanItem item ∈ clean_float_values l) ∧
    List.Sublist respEx150.calls
      (clean_float_values (envEx150.chainCalls respEx150.expiration_date)) ∧
    List.Sublist respEx150.puts
      (clean_float_values (envEx150.chainPuts respEx150.expiration_date)) ∧
    (∀ c ∈ respEx150.calls ++ respEx150.puts, ∀ kv ∈ c,
        kv.2.nonfinite = false)) :=
  ⟨envEx150_ok, c3_sanitization_per_field envEx150 Option.none respEx150 envEx150_ok⟩

/-- C1: in every successful response, each call and put contract carries a
numeric strike inside the inclusive band
`[current_price * 0.9, current_price * 1.1]`; each of the two lists has at
most 10 entries; each list is the element-wise sanitization of an
order-preserving sublist of the provider's original calls/puts records
(no re-sorting before truncation); and on the worked example — price
150.00 with strikes [130, 140, 145, 150, 155, 160, 170] — the filter
retains exactly [140, 145, 150, 155, 160]. -/
theorem c1_strike_band_filter (env : Env) (req : Option ℤ)
    (r : ChainResponse) (h : get_options_chain env req = .ok r) :
    (∀ c ∈ r.calls, ∃ q, strikeVal c = some q ∧
        r.current_price * (9 / 10) ≤ q ∧ q ≤ r.current_price * (11 / 10)) ∧
    (∀ c ∈ r.puts, ∃ q, strikeVal c = some q ∧
        r.current_price * (9 / 10) ≤ q ∧ q ≤ r.current_price * (11 / 10)) ∧
    r.calls.length ≤ 10 ∧ r.puts.length ≤ 10 ∧
    (∃ t, List.Sublist t (env.chainCalls r.expiration_date) ∧
        r.calls = clean_float_values t) ∧
    (∃ t, List.Sublist t (env.chainPuts r.expiration_date) ∧
        r.puts = clean_float_values t) ∧
    (∃ rx, get_options_chain envEx150 Option.none = .ok rx ∧
        rx.current_price = 150 ∧
        rx.calls.map strikeVal =
          [some 140, some 145, some 150, some 155, some 160]) := by
  obtain ⟨p, d, fc, fp, hp, hp0, hne, hs, hfc, hfp, hr⟩ := get_ok_elim h
  subst hr
  dsimp only
  obtain ⟨hfcsub, hfcmem⟩ := bandFilter_ok_elim hfc
  obtain ⟨hfpsub, hfpmem⟩ := bandFilter_ok_elim hfp
  refine ⟨?_, ?_, List.length_take_le 10 fc, List.length_take_le 10 fp,
    ?_, ?_, respEx150, envEx150_ok, by decide, by decide⟩
  · intro c hc
    exact strikeCheck_ok_true (hfcmem c ((List.take_sublist 10 fc).subset hc))
  · intro c hc
    exact strikeCheck_ok_true (hfpmem c ((List.take_sublist 10 fp).subset hc))
  · have hsub : List.Sublist (fc.take 10) ((env.chainCalls d).map cleanItem) := by
      rw [← clean_float_values]
      exact (List.take_sublist 10 fc).trans hfcsub
    obtain ⟨t, ht, heq⟩ := List.sublist_map_iff.mp hsub
    exact ⟨t, ht, by rw [clean_float_values, heq]⟩
  · have hsub : List.Sublist (fp.take 10) ((env.chainPuts d).map cleanItem) := by
      rw [← clean_float_values]
      exact (List.take_sublist 10 fp).trans hfpsub
    obtain ⟨t, ht, heq⟩ := List.sublist_map_iff.mp hsub
    exact ⟨t, ht, by rw [clean_float_values, heq]⟩

/-- Witness for C1: instantiated on the concrete run of `envEx150`. -/
theorem c1_strike_band_filter_witness :
    get_options_chain envEx150 Option.none = .ok respEx150 ∧
    ((∀ c ∈ respEx150.calls, ∃ q, strikeVal c = some q ∧
        respEx150.current_price * (9 / 10) ≤ q ∧
        q ≤ respEx150.current_price * (11 / 10)) ∧
    (∀ c ∈ respEx150.puts, ∃ q, strikeVal c = some q ∧
        respEx150.current_price * (9 / 10) ≤ q ∧
        q ≤ respEx150.current_price * (11 / 10)) ∧
    respEx150.calls.length ≤ 10 ∧ respEx150.puts.length ≤ 10 ∧
    (∃ t, List.Sublist t (envEx150.chainCalls respEx150.expiration_date) ∧
        respEx150.calls = clean_float_values t) ∧
    (∃ t, List.Sublist t (envEx150.chainPuts respEx150.expiration_date) ∧
        respEx150.puts = clean_float_values t) ∧
    (∃ rx, get_options_chain envEx150 Option.none = .ok rx ∧
        rx.current_price = 150 ∧
        rx.calls.map strikeVal =
          [some 140, some 145, some 150, some 155, some 160])) :=
  ⟨envEx150_ok,
    c1_strike_band_filter envEx150 Option.none respEx150 envEx150_ok⟩

/-- C4: when the price resolves, the expiration list is non-empty and the
requested expiration is not in it, the endpoint answers with the
expiration-not-available error payload; and in general the result is
always either a full response or an error payload, never a mix. -/
theorem c4_unavailable_expiration (env : Env) (p : ℚ) (d : ℤ)
    (hp : resolvePrice env = some p) (hp0 : p ≠ 0)
    (hne : env.expirations.isEmpty = false) (hd : d ∉ env.expirations) :
    get_options_chain env (some d) = .error (.expirationNotAvailable d) ∧
    ∀ req : Option ℤ,
      (∃ r, get_options_chain env req = .ok r) ∨
      (∃ e, get_options_chain env req = .error e) := by
  constructor
  · simp [get_options_chain, hp, hp0, hne, selectExpiration, hd]
  · intro req
    cases hg : get_options_chain env req with
    | ok r => exact Or.inl ⟨r, rfl⟩
    | error e => exact Or.inr ⟨e, rfl⟩

/-- Witness for C4: requesting day 99 on `envEx150`, whose provider list
is `[5]`, yields the expiration-not-available payload. -/
theorem c4_unavailable_expiration_witness :
    (resolvePrice envEx150 = some 150 ∧ (150 : ℚ) ≠ 0 ∧
      envEx150.expirations.isEmpty = false ∧ 99 ∉ envEx150.expirations) ∧
    (get_options_chain envEx150 (some 99) =
        .error (.expirationNotAvailable 99) ∧
      ∀ req : Option ℤ,
        (∃ r, get_options_chain envEx150 req = .ok r) ∨
        (∃ e, get_options_chain envEx150 req = .error e)) :=
  ⟨⟨by decide, by decide, by decide, by decide⟩,
    c4_unavailable_expiration envEx150 150 99
      (by decide) (by decide) (by decide) (by decide)⟩

/-- C2: with a valid non-zero price and a non-empty provider expiration
list, a request with no expiration selects, scanning in provider order,
the first date strictly after today — in particular a date from the list
that is strictly future, and the least future date whenever the provider
list is sorted — and when every listed date is today or earlier the
endpoint answers with the no-active-expirations error payload. -/
theorem c2_first_future_expiration (env : Env) (p : ℚ)
    (hp : resolvePrice env = some p) (hp0 : p ≠ 0)
    (hne : env.expirations.isEmpty = false) :
    (∀ r : ChainResponse, get_options_chain env Option.none = .ok r →
        r.expiration_date ∈ env.expirations ∧
        env.today < r.expiration_date ∧
        (∃ l₁ l₂, env.expirations = l₁ ++ r.expiration_date :: l₂ ∧
            ∀ e ∈ l₁, e ≤ env.today) ∧
        (List.Pairwise (· ≤ ·) env.expirations →
            ∀ e ∈ env.expirations, env.today < e → r.expiration_date ≤ e)) ∧
    ((∀ e ∈ env.expirations, e ≤ env.today) →
        get_options_chain env Option.none = .error .noActiveExpirations) := by
  constructor
  · intro r h
    obtain ⟨p', d, fc, fp, hp', hp0', hne', hs, hfc, hfp, hr⟩ := get_ok_elim h
    subst hr
    dsimp only
    simp only [selectExpiration] at hs
    split at hs
    · rename_i d' hf
      have hd' : d' = d := Except.ok.inj hs
      subst hd'
      obtain ⟨hlt, l₁, l₂, heq, hall⟩ := find?_lt_eq_some_split hf
      refine ⟨by rw [heq]; simp, hlt, ⟨l₁, l₂, heq, hall⟩, ?_⟩
      intro hsort e he hte
      rw [heq] at hsort he
      rcases List.mem_append.1 he with h1 | h2
      · exact absurd (hall e h1) (not_le.2 hte)
      · rcases List.mem_cons.1 h2 with he1 | h3
        · rw [he1]
        · exact (List.pairwise_cons.1 (List.pairwise_append.1 hsort).2.1).1 e h3
    · exact Except.noConfusion hs
  · intro hall
    have hf : env.expirations.find? (fun e => env.today < e) = Option.none :=
      List.find?_eq_none.2 (fun x hx => by simpa using not_lt.2 (hall x hx))
    simp [get_options_chain, hp, hp0, hne, selectExpiration, hf]

/-- Witness for C2: instantiated on `envMix`, whose provider list
`[3, 12, 50]` mixes an expired date with future ones relative to day 10. -/
theorem c2_first_future_expiration_witness :
    (resolvePrice envMix = some 150 ∧ (150 : ℚ) ≠ 0 ∧
      envMix.expirations.isEmpty = false) ∧
    ((∀ r : ChainResponse, get_options_chain envMix Option.none = .ok r →
        r.expiration_date ∈ envMix.expirations ∧
        envMix.today < r.expiration_date ∧
        (∃ l₁ l₂, envMix.expirations = l₁ ++ r.expiration_date :: l₂ ∧
            ∀ e ∈ l₁, e ≤ envMix.today) ∧
        (List.Pairwise (· ≤ ·) envMix.expirations →
            ∀ e ∈ envMix.expirations, envMix.today < e →
              r.expiration_date ≤ e)) ∧
    ((∀ e ∈ envMix.expirations, e ≤ envMix.today) →
        get_options_chain envMix Option.none = .error .noActiveExpirations)) :=
  ⟨⟨by decide, by decide, by decide⟩,
    c2_first_future_expiration envMix 150 (by decide) (by decide) (by decide)⟩

lemma categorize_weekly {d : ℤ} (h : d ≤ 7) :
    categorize_expiration d = "weekly" := by
  rw [categorize_expiration, if_pos h]

lemma categorize_short_term {d : ℤ} (h1 : 7 < d) (h2 : d ≤ 30) :
    categorize_expiration d = "short-term" := by
  rw [categorize_expiration, if_neg (by omega), if_pos h2]

lemma categorize_monthly {d : ℤ} (h1 : 30 < d) (h2 : d ≤ 90) :
    categorize_expiration d = "monthly" := by
  rw [categorize_expiration, if_neg (by omega), if_neg (by omega), if_pos h2]

lemma categorize_quarterly {d : ℤ} (h1 : 90 < d) (h2 : d ≤ 180) :
    categorize_expiration d = "quarterly" := by
  rw [categorize_expiration, if_neg (by omega), if_neg (by omega),
    if_neg (by omega), if_pos h2]

/-- C5: every enriched expiration of a successful response has
`0 < days_until_expiration ≤ 180`, carries the category computed by
`categorize_expiration`, and that assignment is weekly/short-term/monthly/
quarterly on the inclusive bands (0,7], (7,30], (30,90], (90,180]; in
particular exactly 7 days is weekly and exactly 8 is short-term. -/
theorem c5_expiration_categories (env : Env) (req : Option ℤ)
    (r : ChainResponse) (h : get_options_chain env req = .ok r) :
    (∀ x ∈ r.available_expirations,
        0 < x.days_until_expiration ∧ x.days_until_expiration ≤ 180 ∧
        x.category = categorize_expiration x.days_until_expiration ∧
        (x.days_until_expiration ≤ 7 → x.category = "weekly") ∧
        (7 < x.days_until_expiration ∧ x.days_until_expiration ≤ 30 →
            x.category = "short-term") ∧
        (30 < x.days_until_expiration ∧ x.days_until_expiration ≤ 90 →
            x.category = "monthly") ∧
        (90 < x.days_until_expiration ∧ x.days_until_expiration ≤ 180 →
            x.category = "quarterly")) ∧
    categorize_expiration 7 = "weekly" ∧
    categorize_expiration 8 = "short-term" := by
  refine ⟨?_, by decide, by decide⟩
  obtain ⟨p, d, fc, fp, hp, hp0, hne, hs, hfc, hfp, hr⟩ := get_ok_elim h
  subst hr
  intro x hx
  obtain ⟨e, he, hpos, hle, hxe⟩ := mem_smartExpirations hx
  subst hxe
  dsimp only
  refine ⟨hpos, hle, rfl, ?_, ?_, ?_, ?_⟩
  · intro h7
    exact categorize_weekly h7
  · intro hb
    exact categorize_short_term hb.1 hb.2
  · intro hb
    exact categorize_monthly hb.1 hb.2
  · intro hb
    exact categorize_quarterly hb.1 hb.2

/-- Witness for C5: instantiated on the concrete run of `envEx150`. -/
theorem c5_expiration_categories_witness :
    get_options_chain envEx150 Option.none = .ok respEx150 ∧
    ((∀ x ∈ respEx150.available_expirations,
        0 < x.days_until_expiration ∧ x.days_until_expiration ≤ 180 ∧
        x.category = categorize_expiration x.days_until_expiration ∧
        (x.days_until_expiration ≤ 7 → x.category = "weekly") ∧
        (7 < x.days_until_expiration ∧ x.days_until_expiration ≤ 30 →
            x.category = "short-term") ∧
        (30 < x.days_until_expiration ∧ x.days_until_expiration ≤ 90 →
            x.category = "monthly") ∧
        (90 < x.days_until_expiration ∧ x.days_until_expiration ≤ 180 →
            x.category = "quarterly")) ∧
    categorize_expiration 7 = "weekly" ∧
    categorize_expiration 8 = "short-term") :=
  ⟨envEx150_ok,
    c5_expiration_categories envEx150 Option.none respEx150 envEx150_ok⟩

/-- C6: every enriched expiration of a successful response has
`trading_days_approx` equal to the mathematical floor of the rational
`days_until_expiration * 5 / 7`. -/
theorem c6_trading_days_floor (env : Env) (req : Option ℤ)
    (r : ChainResponse) (h : get_options_chain env req = .ok r) :
    ∀ x ∈ r.available_expirations,
      x.trading_days_approx = ⌊(x.days_until_expiration : ℚ) * 5 / 7⌋ := by
  obtain ⟨p, d, fc, fp, hp, hp0, hne, hs, hfc, hfp, hr⟩ := get_ok_elim h
  subst hr
  intro x hx
  obtain ⟨e, he, hpos, hle, hxe⟩ := mem_smartExpirations hx
  subst hxe
  dsimp only
  rw [pyInt_divInt_floor (by omega) (by norm_num)]
  congr 1
  push_cast
  ring

/-- Witness for C6: instantiated on the concrete run of `envEx150`. -/
theorem c6_trading_days_floor_witness :
    get_options_chain envEx150 Option.none = .ok respEx150 ∧
    ∀ x ∈ respEx150.available_expirations,
      x.trading_days_approx = ⌊(x.days_until_expiration : ℚ) * 5 / 7⌋ :=
  ⟨envEx150_ok,
    c6_trading_days_floor envEx150 Option.none respEx150 envEx150_ok⟩

/-- C7: the response's `days_to_expiration` is the floor of the timestamp
difference between midnight of the selected expiration and the current
moment, measured in days — so at exactly midnight it equals the calendar
difference, and at any later time of day it is one less than the calendar
difference. -/
theorem c7_days_to_expiration_truncation (env : Env) (req : Option ℤ)
    (r : ChainResponse) (h : get_options_chain env req = .ok r)
    (h0 : 0 ≤ env.nowSec) (h1 : env.nowSec < 86400) :
    r.days_to_expiration =
      Int.fdiv (r.expiration_date * 86400 - (env.today * 86400 + env.nowSec))
        86400 ∧
    (env.nowSec = 0 →
        r.days_to_expiration = r.expiration_date - env.today) ∧
    (0 < env.nowSec →
        r.days_to_expiration = r.expiration_date - env.today - 1) := by
  obtain ⟨p, d, fc, fp, hp, hp0, hne, hs, hfc, hfp, hr⟩ := get_ok_elim h
  subst hr
  dsimp only
  refine ⟨rfl, ?_, ?_⟩
  · intro hz
    rw [daysToExp_eq d h0 h1, if_pos hz]
  · intro hpos
    rw [daysToExp_eq d h0 h1, if_neg (by omega)]

/-- Witness for C7: instantiated on `envLate`, observed one hour past
midnight, where the floor of the timestamp difference (4 days) differs by
one from the calendar difference (5 days). -/
theorem c7_days_to_expiration_truncation_witness :
    (get_options_chain envLate Option.none = .ok respLate ∧
      (0 : ℤ) ≤ envLate.nowSec ∧ envLate.nowSec < 86400) ∧
    (respLate.days_to_expiration =
      Int.fdiv
        (respLate.expiration_date * 86400 -
          (envLate.today * 86400 + envLate.nowSec)) 86400 ∧
    (envLate.nowSec = 0 →
        respLate.days_to_expiration =
          respLate.expiration_date - envLate.today) ∧
    (0 < envLate.nowSec →
        respLate.days_to_expiration =
          respLate.expiration_date - envLate.today - 1)) :=
  ⟨⟨envLate_ok, by decide, by decide⟩,
    c7_days_to_expiration_truncation envLate Option.none respLate envLate_ok
      (by decide) (by decide)⟩
